import Mathlib

/-!
# Verification of the rank-predictor core (parser.js, server.js)

Shallow embedding of the answer-sheet parser, score calculator and
percentile/rank estimator of the `rank-predictor` repository.

Conventions of the embedding:
* JavaScript numbers that carry marks/percentages are modelled as `ℚ`
  (the source treats them as exact decimals).
* `Math.round` is `jsRound` (floor of `x + 1/2`, JavaScript's
  round-half-towards-positive-infinity).
* Dynamically typed pair fields (`p.your`, `p.correct`) are modelled by
  `JsVal` (`undef`/`null`/`str`/`num`), with JavaScript truthiness and
  `String(...)` coercion reproduced in `jsOrEmptyToString`.
* Code that would throw a `TypeError` (indexing `undefined`) is modelled
  with `Except Unit`.
-/

/-- JavaScript `Math.round`: round half towards positive infinity. -/
def jsRound (x : ℚ) : ℤ := ⌊x + 1/2⌋

/-- JavaScript `Math.round(x * 100) / 100` — rounding to 2 decimal places. -/
def round2 (x : ℚ) : ℚ := (jsRound (x * 100) : ℚ) / 100

/-- A dynamically-typed JavaScript value as it can appear in a pair field. -/
inductive JsVal where
  | undef : JsVal
  | null : JsVal
  | str : String → JsVal
  | num : Int → JsVal
deriving DecidableEq

/-- The coercion `String(v || "")`: falsy values (`undefined`, `null`, `""`, `0`)
become the empty string, otherwise the value is coerced to a string. -/
def jsOrEmptyToString : JsVal → String
  | .undef => ""
  | .null => ""
  | .str s => s
  | .num n => if n = 0 then "" else toString n

/-- An answer pair as emitted by the parser: `{ your, correct }`. -/
structure Pair where
  your : JsVal
  correct : JsVal
deriving DecidableEq

/-- JavaScript `String.prototype.trim` (whitespace stripped at both ends). -/
def jsTrim (s : String) : String :=
  String.mk (((s.data.dropWhile Char.isWhitespace).reverse.dropWhile
    Char.isWhitespace).reverse)

/-- JavaScript `String.prototype.toUpperCase` on the ASCII range. -/
def jsToUpper (s : String) : String := String.mk (s.data.map Char.toUpper)

/-- Does `needle` occur as a contiguous sublist of `hay`? -/
def charsContain (hay needle : List Char) : Bool :=
  hay.tails.any (fun t => needle.isPrefixOf t)

/-- JavaScript `hay.includes(needle)` on strings. -/
def strIncludes (hay needle : String) : Bool := charsContain hay.data needle.data

/-- Does the regex `NOT\s*ATTEMPTED` match starting at this position?
(`\s` is modelled by `Char.isWhitespace`.) -/
def notAttemptedAt : List Char → Bool
  | 'N' :: 'O' :: 'T' :: rest => "ATTEMPTED".data.isPrefixOf (rest.dropWhile Char.isWhitespace)
  | _ => false

/-- The test `/NOT\s*ATTEMPTED/i.test(s)` for a string `s` that has already
been uppercased (so the uppercase pattern is exact). -/
def hasNotAttempted (s : String) : Bool := s.data.tails.any notAttemptedAt

/-- The function `mapToLetter` (parser.js 168–171): object lookup `{1:"A",…}[num] || "--"`.
Property access coerces the key to a string, so the domain is `String`. -/
def mapToLetter (num : String) : String :=
  if num = "1" then "A"
  else if num = "2" then "B"
  else if num = "3" then "C"
  else if num = "4" then "D"
  else "--"

/-- The three classification outcomes of a pair inside `computeScore`. -/
inductive Cls where
  | correct : Cls
  | wrong : Cls
  | unattempted : Cls
deriving DecidableEq

/-- The per-pair classification of `computeScore` (parser.js 193–203):
normalize `p.your` and `p.correct` with `String(· || "").trim().toUpperCase()`;
unattempted if the normalized chosen value is empty, `"--"` or matches
`/NOT\s*ATTEMPTED/i`; else correct iff it equals the normalized correct
value; else wrong. -/
def classify (p : Pair) : Cls :=
  let your := jsToUpper (jsTrim (jsOrEmptyToString p.your))
  let correctOpt := jsToUpper (jsTrim (jsOrEmptyToString p.correct))
  if your = "" ∨ your = "--" ∨ hasNotAttempted your then .unattempted
  else if your = correctOpt then .correct
  else .wrong

/-- The result object of `computeScore`. -/
structure ScoreSummary where
  correct : Nat
  wrong : Nat
  unattempted : Nat
  totalQuestions : Nat
  marksPerCorrect : ℚ
  negativePerWrong : ℚ
  totalMarks : ℚ
  accuracy : ℚ
deriving DecidableEq

/-- One step of the counting loop of `computeScore`
(accumulator `(correct, wrong, unattempted)`). -/
def scoreStep (acc : Nat × Nat × Nat) (p : Pair) : Nat × Nat × Nat :=
  match classify p with
  | .unattempted => (acc.1, acc.2.1, acc.2.2 + 1)
  | .correct => (acc.1 + 1, acc.2.1, acc.2.2)
  | .wrong => (acc.1, acc.2.1 + 1, acc.2.2)

/-- The function `computeScore(pairs = [], marksPerCorrect = 1, negativePerWrong = 0.25)`
(parser.js 185–218). -/
def computeScore (pairs : List Pair := []) (marksPerCorrect : ℚ := 1)
    (negativePerWrong : ℚ := 1/4) : ScoreSummary :=
  let counts := pairs.foldl scoreStep (0, 0, 0)
  let correct := counts.1
  let wrong := counts.2.1
  let unattempted := counts.2.2
  let totalMarks : ℚ := (correct : ℚ) * marksPerCorrect - (wrong : ℚ) * negativePerWrong
  -- `correct + wrong + unattempted || pairs.length`
  let totalQuestions := if correct + wrong + unattempted = 0 then pairs.length
    else correct + wrong + unattempted
  -- `totalQuestions === 0 ? 0 : (correct / Math.max(1, correct + wrong)) * 100`
  let accuracy : ℚ := if totalQuestions = 0 then 0
    else ((correct : ℚ) / ((max 1 (correct + wrong) : ℕ) : ℚ)) * 100
  { correct := correct
    wrong := wrong
    unattempted := unattempted
    totalQuestions := totalQuestions
    marksPerCorrect := marksPerCorrect
    negativePerWrong := negativePerWrong
    totalMarks := round2 totalMarks
    accuracy := round2 accuracy }

/-- Count of pairs classified `correct`. -/
def countCorrect (pairs : List Pair) : Nat := pairs.countP (fun p => classify p == Cls.correct)

/-- Count of pairs classified `wrong`. -/
def countWrong (pairs : List Pair) : Nat := pairs.countP (fun p => classify p == Cls.wrong)

/-- Count of pairs classified `unattempted`. -/
def countUnattempted (pairs : List Pair) : Nat :=
  pairs.countP (fun p => classify p == Cls.unattempted)

/-- The result of the rank-estimation block of `POST /api/parse`
(server.js 159–191), with `percentile` as it appears in the JSON response
(rounded to 2 decimals, or null). -/
structure RankResult where
  percentile : Option ℚ
  estimatedRank : Option ℤ
  sampleSize : Nat
deriving DecidableEq

/-- The rank-estimation block of `POST /api/parse` (server.js 159–191):
`sampleSize = Score.countDocuments()`, and when positive,
`less = countDocuments({totalMarks: {$lt: newTotal}})`,
`percentile = less / sampleSize * 100`,
`estimatedRank = Math.max(1, Math.round((1 - percentile/100) * totalCandidates))`;
the response rounds `percentile` to 2 decimals (server.js 188). The
historical corpus is modelled as the list of its `totalMarks` values. -/
def estimateRank (newTotal : ℚ) (corpus : List ℚ) (totalCandidates : ℚ) : RankResult :=
  let sampleSize := corpus.length
  if 0 < sampleSize then
    let less := corpus.countP (fun t => decide (t < newTotal))
    let percentile : ℚ := ((less : ℚ) / (sampleSize : ℚ)) * 100
    let rank : ℤ := max 1 (jsRound ((1 - percentile / 100) * totalCandidates))
    { percentile := some (round2 percentile), estimatedRank := some rank,
      sampleSize := sampleSize }
  else
    { percentile := none, estimatedRank := none, sampleSize := sampleSize }

/-! ## Structural parser (parser.js `parseAnswers`)

The HTML document is abstracted at the level of what the cheerio queries
of `parseAnswers` read: the span texts of each `.section-lbl` element, the
rows/cells of each `table.norm-tbl, table.questionRowTbl` match (with the
class and image markers the code inspects), each such table's next-sibling
`table.menu-tbl` when present, and the captures of the fallback regex. -/

/-- A `td` cell: its text, and the markers the parser inspects
(`class="bold"`, `class="rightAns"`, a descendant `img[src*="tick.png"]`). -/
structure Cell where
  text : String
  bold : Bool
  rightAns : Bool
  tickImg : Bool
deriving DecidableEq

/-- A `tr` row of a table. -/
structure Row where
  cells : List Cell
deriving DecidableEq

/-- One `table.norm-tbl` / `table.questionRowTbl` match, together with its
next-sibling `table.menu-tbl` when there is one (the source's
`tblElem.next("table.menu-tbl")`; the `||`-chained sibling fallbacks at
parser.js 103–104 are dead code, since a cheerio object is always truthy). -/
structure QTable where
  rows : List Row
  menu : Option (List Row)
deriving DecidableEq

/-- The abstracted input document. `bodyMatches` is the list of successive
capture pairs of the fallback regex
`/Your\s*Answer\s*[:\-]?\s*([A-D]|--|Not Attempted)\b.*?Correct\s*Answer\s*[:\-]?\s*([A-D])/gi`
over the whitespace-collapsed body text (the regex engine itself is left
abstract; only the sequence of matches matters to the control flow). -/
structure Doc where
  sectionLabels : List (List String)
  tables : List QTable
  bodyMatches : List (String × String)

/-- A named section holding answer pairs. -/
structure Section where
  name : String
  pairs : List Pair
deriving DecidableEq

/-- The value returned by `parseAnswers`. -/
structure ParseResult where
  sections : List Section
deriving DecidableEq

/-- Section discovery (parser.js 20–32): for each `.section-lbl` element
with at least two spans whose first span text contains `"Section"` and
whose second span text is nonempty after trimming, a new section name is
appended in document order. -/
def discoverSections (labels : List (List String)) : List String :=
  labels.foldl (fun acc spans =>
    match spans with
    | pfx :: nm :: _ =>
      if strIncludes (jsTrim pfx) "Section" ∧ jsTrim nm ≠ "" then acc ++ [jsTrim nm]
      else acc
    | _ => acc) []

/-- Does the trimmed cell text match `/^Q\.\d+$/`? -/
def isQLabel (s : String) : Bool :=
  match s.data with
  | 'Q' :: '.' :: rest => rest ≠ [] && rest.all Char.isDigit
  | _ => false

/-- The concatenated text of all cells of a row (cheerio `.find("td").text()`). -/
def rowText (r : Row) : String := String.mk ((r.cells.map (fun c => c.text.data)).flatten)

/-- Does the row's concatenated cell text contain `"Ans"`? -/
def rowHasAns (r : Row) : Bool := strIncludes (rowText r) "Ans"

/-- Locating the answer row (parser.js 46–67): find the first row holding a
cell whose trimmed text matches `Q.<digits>`; the answer row is the next
row if its text contains `"Ans"`, otherwise the first later row that has a
`td.bold` cell and contains `"Ans"`. `none` means the block is skipped. -/
def findAnsIdx (rows : List Row) : Option Nat :=
  match rows.findIdx? (fun r => r.cells.any (fun c => isQLabel (jsTrim c.text))) with
  | none => none
  | some qIdx =>
    let after := rows.drop (qIdx + 1)
    match after.head? with
    | none => none
    | some r =>
      if rowHasAns r then some (qIdx + 1)
      else
        match after.findIdx? (fun r2 => r2.cells.any Cell.bold && rowHasAns r2) with
        | some j => some (qIdx + 1 + j)
        | none => none

/-- The regex `/^(\d+)\./`: the leading digits when they are followed by a
literal dot. -/
def leadingNumDot (s : String) : Option String :=
  let ds := s.data.takeWhile Char.isDigit
  if ds ≠ [] && (s.data.drop ds.length).head? = some '.' then some (String.mk ds)
  else none

/-- Correct-option extraction (parser.js 69–96): over the answer row and up
to three following rows, inspect the second cell; when it is flagged
(`rightAns` class or tick image) and its trimmed text starts with
`<digits>.`, record those digits. The source's `forEach` ignores the inner
`return false`, so a later flagged row overwrites an earlier one. -/
def extractCorrectNum (t : QTable) : Option String :=
  match findAnsIdx t.rows with
  | none => none
  | some ansIdx =>
    ((t.rows.drop ansIdx).take 4).foldl (fun acc optRow =>
      match optRow.cells.get? 1 with
      | none => acc
      | some td =>
        if td.rightAns || td.tickImg then
          match leadingNumDot (jsTrim td.text) with
          | some num => some num
          | none => acc
        else acc) none

/-- Chosen-option extraction (parser.js 100–113): read the last row of the
menu table; when it has at least two cells and the first cell's text
contains `"Chosen Option"`, the trimmed text of the second cell. -/
def extractChosenRaw (t : QTable) : Option String :=
  match t.menu with
  | none => none
  | some menuRows =>
    match menuRows.getLast? with
    | none => none
    | some chosenRow =>
      match chosenRow.cells with
      | c0 :: c1 :: _ =>
        if strIncludes c0.text "Chosen Option" then some (jsTrim c1.text) else none
      | _ => none

/-- The pair a question table contributes (parser.js 98–121): `none` when no
correct option was flagged; otherwise `your` is `mapToLetter` of the chosen
string when that string is present and nonempty (JavaScript truthiness of
`chosenNum`), else the sentinel. -/
def extractPair (t : QTable) : Option Pair :=
  match extractCorrectNum t with
  | none => none
  | some correctNum =>
    let yourOpt := match extractChosenRaw t with
      | some s => if s = "" then "--" else mapToLetter s
      | none => "--"
    some ⟨JsVal.str yourOpt, JsVal.str (mapToLetter correctNum)⟩

/-- The list `allPairs`: the pairs emitted by the structural pass, in table order.
(The source also pushes each pair into the last discovered section as it
goes; that interim state is discarded by the distribution step, which
reassigns every section's `pairs` from `allPairs`.) -/
def structuralPairs (tables : List QTable) : List Pair := tables.filterMap extractPair

/-- JavaScript `allPairs.slice(a, b)`. -/
def jsSlice (l : List Pair) (a b : Nat) : List Pair := (l.drop a).take (b - a)

/-- The even-distribution `forEach` (parser.js 134–142) unrolled: the
section at position `i` receives `allPairs.slice(i*p, i*p + p)`, and the
last one additionally the remainder `allPairs.slice(k*p)`. -/
def distributeAux (names : List String) (i k p : Nat) (l : List Pair) : List Section :=
  match names with
  | [] => []
  | nm :: rest =>
    let base := jsSlice l (i * p) (i * p + p)
    (if i + 1 = k then Section.mk nm (base ++ l.drop (k * p)) else Section.mk nm base)
      :: distributeAux rest (i + 1) k p l

/-- The even-distribution step for `sections.length > 1` (parser.js 129–142)
with `p = Math.floor(allPairs.length / numSections)`. -/
def distributePairs (names : List String) (l : List Pair) : List Section :=
  distributeAux names 0 names.length (l.length / names.length) l

/-- Lines 129–146 of parser.js: even distribution when more than one section
was discovered, otherwise `sections[0].pairs = allPairs` — which, when no
section was discovered (parser.js 34–38 pushes nothing), reads `undefined`
and throws a `TypeError`, modelled as `Except.error`. -/
def assembleSections (names : List String) (l : List Pair) : Except Unit (List Section) :=
  if 1 < names.length then Except.ok (distributePairs names l)
  else
    match names with
    | [] => Except.error ()
    | nm :: _ => Except.ok [⟨nm, l⟩]

/-- The effect of `sections[sections.length - 1].pairs.push(...)` for each fallback match:
append `extra` to the pairs of the last section (error on an empty list,
where the source would again index `undefined`). -/
def appendToLast : List Section → List Pair → Except Unit (List Section)
  | [], _ => Except.error ()
  | [s], extra => Except.ok [⟨s.name, s.pairs ++ extra⟩]
  | s :: s2 :: rest, extra =>
    match appendToLast (s2 :: rest) extra with
    | Except.ok tl => Except.ok (s :: tl)
    | Except.error e => Except.error e

/-- A fallback regex match turned into a pair (parser.js 155). -/
def fallbackPair (m : String × String) : Pair := ⟨JsVal.str m.1, JsVal.str m.2⟩

/-- The body of `parseAnswers` on a valid non-empty HTML string (parser.js 15–165):
discover sections, collect the structural pairs, distribute them, and when
the distributed sections hold no pairs at all, append every fallback regex
match to the last section. -/
def parseAnswersCore (doc : Doc) : Except Unit ParseResult :=
  match assembleSections (discoverSections doc.sectionLabels) (structuralPairs doc.tables) with
  | Except.error e => Except.error e
  | Except.ok secs =>
    if (secs.flatMap Section.pairs).length = 0 then
      match appendToLast secs (doc.bodyMatches.map fallbackPair) with
      | Except.error e => Except.error e
      | Except.ok secs2 => Except.ok ⟨secs2⟩
    else Except.ok ⟨secs⟩

/-- The input of `parseAnswers`: either a value failing the guard
`!html || typeof html !== "string"` (a non-string, or the empty string), or
a non-empty HTML string abstracted as its document. -/
inductive HtmlInput where
  | invalid : HtmlInput
  | valid : Doc → HtmlInput

/-- The function `parseAnswers(html)` (parser.js 9–166) including the input guard, which
returns `{ sections: [] }` for empty or non-string input. -/
def parseAnswers : HtmlInput → Except Unit ParseResult
  | .invalid => Except.ok ⟨[]⟩
  | .valid doc => parseAnswersCore doc

/-- One entry of `computeSectionScores(...).sections`: `{ name, ...sc }`. -/
structure SectionScore where
  name : String
  score : ScoreSummary
deriving DecidableEq

/-- The value returned by `computeSectionScores`. -/
structure SectionScoresResult where
  sections : List SectionScore
  total : ScoreSummary
deriving DecidableEq

/-- The function `computeSectionScores(sections)` (parser.js 173–183): `computeScore`
per section, and once more on `sections.flatMap(sec => sec.pairs)`. -/
def computeSectionScores (secs : List Section) : SectionScoresResult :=
  { sections := secs.map (fun sec => ⟨sec.name, computeScore sec.pairs⟩)
    total := computeScore (secs.flatMap Section.pairs) }

/-- The spec's reading of the overall total (§4.3): `computeScore` applied
to the concatenation of all sections' pair lists, in section order. -/
def overallTotalSpec (secs : List Section) : ScoreSummary :=
  computeScore ((secs.map Section.pairs).flatten)

/-! ### Concrete documents used as witnesses and counterexamples -/

/-- A question row `Q.1`. -/
def rowQ1 : Row := ⟨[⟨"Q.1", false, false, false⟩]⟩

/-- A question table whose flagged option row reads `2. London` and which
has no menu table: correct option B, no chosen option. -/
def tblNoMenu : QTable :=
  ⟨[rowQ1, ⟨[⟨"Ans", true, false, false⟩, ⟨"2. London", false, true, false⟩]⟩], none⟩

/-- A menu table whose last row is `Chosen Option : 3`. -/
def menuChosen3 : List Row :=
  [⟨[⟨"Chosen Option :", false, false, false⟩, ⟨"3", false, false, false⟩]⟩]

/-- A question table with correct option `1.` and chosen option `3`. -/
def tblChosen3 : QTable :=
  ⟨[rowQ1, ⟨[⟨"Ans", true, false, false⟩, ⟨"1. Paris", false, true, false⟩]⟩],
    some menuChosen3⟩

/-- A question table whose flagged option row reads `5. Rome`: the parser
emits a pair whose `correct` is `mapToLetter "5" = "--"`, the sentinel. -/
def tblFive : QTable :=
  ⟨[rowQ1, ⟨[⟨"Ans", true, false, false⟩, ⟨"5. Rome", false, true, false⟩]⟩], none⟩

/-- A `.section-lbl` span list reading `Section : <name>`. -/
def sectionLabel (nm : String) : List String := ["Section :", nm]

/-- A document with no `.section-lbl` elements (and one parsable question
block): the input on which `parseAnswers` dereferences `sections[0]`. -/
def docNoSections : Doc := ⟨[], [tblNoMenu], [("B", "C")]⟩

/-- A two-section document with three question blocks. -/
def docTwoSections : Doc :=
  ⟨[sectionLabel "Maths", sectionLabel "GK"], [tblChosen3, tblNoMenu, tblFive], []⟩

/-- A one-section document with no question blocks and one fallback match. -/
def docFallback : Doc := ⟨[sectionLabel "Maths"], [], [("B", "C")]⟩

/-! ## Lemmas about the score calculator -/

theorem foldl_scoreStep (pairs : List Pair) :
    ∀ acc : Nat × Nat × Nat, pairs.foldl scoreStep acc
      = (acc.1 + countCorrect pairs, acc.2.1 + countWrong pairs,
          acc.2.2 + countUnattempted pairs) := by
  induction pairs with
  | nil => intro acc; simp [countCorrect, countWrong, countUnattempted]
  | cons p ps ih =>
    intro acc
    simp only [List.foldl_cons, countCorrect, countWrong, countUnattempted,
      List.countP_cons] at *
    cases h : classify p <;>
      simp [scoreStep, h, ih] <;> omega

theorem counts_sum (pairs : List Pair) :
    countCorrect pairs + countWrong pairs + countUnattempted pairs = pairs.length := by
  induction pairs with
  | nil => simp [countCorrect, countWrong, countUnattempted]
  | cons p ps ih =>
    simp only [countCorrect, countWrong, countUnattempted, List.countP_cons,
      List.length_cons] at *
    cases h : classify p <;> simp [h] <;> omega

theorem computeScore_fields (pairs : List Pair) (m n : ℚ) :
    (computeScore pairs m n).correct = countCorrect pairs
    ∧ (computeScore pairs m n).wrong = countWrong pairs
    ∧ (computeScore pairs m n).unattempted = countUnattempted pairs := by
  simp [computeScore, foldl_scoreStep]

theorem totalQuestions_eq_length (pairs : List Pair) (m n : ℚ) :
    (computeScore pairs m n).totalQuestions = pairs.length := by
  have h := counts_sum pairs
  simp only [computeScore, foldl_scoreStep, Nat.zero_add]
  split <;> omega

/-! ## Lemmas about the section distribution and assembly -/

theorem distributeAux_length (k p : Nat) (l : List Pair) :
    ∀ (names : List String) (i : Nat), (distributeAux names i k p l).length = names.length := by
  intro names
  induction names with
  | nil => intro i; rfl
  | cons nm rest ih => intro i; simp [distributeAux, ih]

theorem distributeAux_get (k p : Nat) (l : List Pair) :
    ∀ (names : List String) (i j : Nat),
      (distributeAux names i k p l).get? j
        = (names.get? j).map (fun nm =>
            if i + j + 1 = k
            then Section.mk nm (jsSlice l ((i + j) * p) ((i + j) * p + p) ++ l.drop (k * p))
            else Section.mk nm (jsSlice l ((i + j) * p) ((i + j) * p + p))) := by
  intro names
  induction names with
  | nil => intro i j; simp [distributeAux]
  | cons nm rest ih =>
    intro i j
    cases j with
    | zero => simp [distributeAux]
    | succ j =>
      simp only [distributeAux, List.get?_cons_succ]
      rw [ih (i + 1) j]
      rw [show i + 1 + j = i + (j + 1) from by omega]

theorem distributeAux_flatMap (k p : Nat) (l : List Pair) :
    ∀ (names : List String) (i : Nat), names ≠ [] → i + names.length = k →
      (distributeAux names i k p l).flatMap Section.pairs = l.drop (i * p) := by
  intro names
  induction names with
  | nil => intro i h; exact absurd rfl h
  | cons nm rest ih =>
    intro i _ hk
    cases rest with
    | nil =>
      have hik : i + 1 = k := by simpa using hk
      simp only [distributeAux, hik, if_true, eq_self_iff_true, List.flatMap_cons,
        List.flatMap_nil, List.append_nil, jsSlice, Nat.add_sub_cancel_left]
      rw [← hik, show (i + 1) * p = i * p + p from by ring, ← List.drop_drop,
        List.take_append_drop]
    | cons nm2 rest2 =>
      have hne : ¬(i + 1 = k) := by
        simp only [List.length_cons] at hk; omega
      have step : distributeAux (nm :: nm2 :: rest2) i k p l
          = Section.mk nm (jsSlice l (i * p) (i * p + p))
            :: distributeAux (nm2 :: rest2) (i + 1) k p l := by
        simp only [distributeAux, hne, if_false]
      rw [step, List.flatMap_cons,
        ih (i + 1) (by simp) (by simp only [List.length_cons] at hk ⊢; omega)]
      simp only [jsSlice, Nat.add_sub_cancel_left]
      rw [show (i + 1) * p = i * p + p from by ring, ← List.drop_drop,
        List.take_append_drop]

theorem distributePairs_flatMap (names : List String) (l : List Pair) (h : names ≠ []) :
    (distributePairs names l).flatMap Section.pairs = l := by
  simpa [distributePairs] using
    distributeAux_flatMap names.length (l.length / names.length) l names 0 h
      (Nat.zero_add _)

theorem assembleSections_ok (names : List String) (l : List Pair) (secs : List Section)
    (h : assembleSections names l = Except.ok secs) :
    secs ≠ [] ∧ secs.flatMap Section.pairs = l := by
  unfold assembleSections at h
  by_cases hk : 1 < names.length
  · rw [if_pos hk] at h
    injection h with h
    subst h
    refine ⟨?_, distributePairs_flatMap names l (by intro hn; rw [hn] at hk; simp at hk)⟩
    have hlen := distributeAux_length names.length (l.length / names.length) l names 0
    intro hnil
    rw [show distributeAux names 0 names.length (l.length / names.length) l
        = distributePairs names l from rfl, hnil] at hlen
    simp at hlen
    omega
  · rw [if_neg hk] at h
    cases names with
    | nil => cases h
    | cons nm rest =>
      injection h with h
      subst h
      simp

theorem appendToLast_ok (extra : List Pair) :
    ∀ (secs secs2 : List Section), appendToLast secs extra = Except.ok secs2 →
      ∃ start last, secs = start ++ [last]
        ∧ secs2 = start ++ [Section.mk last.name (last.pairs ++ extra)] := by
  intro secs
  induction secs with
  | nil => intro secs2 h; cases h
  | cons s rest ih =>
    intro secs2 h
    cases rest with
    | nil =>
      simp only [appendToLast] at h
      injection h with h
      exact ⟨[], s, by simp, by simp [← h]⟩
    | cons s2 rest2 =>
      simp only [appendToLast] at h
      cases hrec : appendToLast (s2 :: rest2) extra with
      | error e => rw [hrec] at h; cases h
      | ok tl =>
        rw [hrec] at h
        injection h with h
        obtain ⟨start, last, h1, h2⟩ := ih tl hrec
        exact ⟨s :: start, last, by simp [h1], by simp [← h, h2]⟩

theorem flatMap_pairs_eq_nil {secs : List Section}
    (h : secs.flatMap Section.pairs = []) : ∀ s ∈ secs, s.pairs = [] := by
  induction secs with
  | nil => simp
  | cons s rest ih =>
    simp only [List.flatMap_cons, List.append_eq_nil] at h
    intro x hx
    rcases List.mem_cons.mp hx with hx | hx
    · rw [hx]; exact h.1
    · exact ih h.2 x hx

theorem flatMap_pairs_eq_flatten (secs : List Section) :
    secs.flatMap Section.pairs = (secs.map Section.pairs).flatten := by
  induction secs with
  | nil => rfl
  | cons s rest ih => simp [ih]

/-! ## Claim theorems -/

/-- C2: for every list of pairs and marking scheme, `computeScore` classifies
each pair into exactly one of correct/wrong/unattempted (the three counts sum
to the number of pairs), and returns `totalMarks = correct*marksPerCorrect -
wrong*negativePerWrong` rounded to 2 decimals, `totalQuestions =
correct+wrong+unattempted` with fallback to `pairs.length` when that sum is
zero, and `accuracy = correct / max(1, correct+wrong) * 100` rounded to 2
decimals and 0 when there are no questions; on the pairs
`[{A,A},{B,A},{--,A}]` with the default scheme it returns correct=1, wrong=1,
unattempted=1, totalMarks=0.75, accuracy=50. -/
theorem computeScore_spec :
    (∀ (pairs : List Pair) (m n : ℚ),
      (computeScore pairs m n).correct = countCorrect pairs
      ∧ (computeScore pairs m n).wrong = countWrong pairs
      ∧ (computeScore pairs m n).unattempted = countUnattempted pairs
      ∧ countCorrect pairs + countWrong pairs + countUnattempted pairs = pairs.length
      ∧ (computeScore pairs m n).totalMarks
          = round2 ((countCorrect pairs : ℚ) * m - (countWrong pairs : ℚ) * n)
      ∧ (computeScore pairs m n).totalQuestions
          = (if countCorrect pairs + countWrong pairs + countUnattempted pairs = 0
             then pairs.length
             else countCorrect pairs + countWrong pairs + countUnattempted pairs)
      ∧ (computeScore pairs m n).accuracy
          = round2 (if (computeScore pairs m n).totalQuestions = 0 then 0
              else ((countCorrect pairs : ℚ)
                / ((max 1 (countCorrect pairs + countWrong pairs) : ℕ) : ℚ)) * 100))
    ∧ computeScore [⟨.str "A", .str "A"⟩, ⟨.str "B", .str "A"⟩, ⟨.str "--", .str "A"⟩]
        = ⟨1, 1, 1, 3, 1, 1/4, 3/4, 50⟩ := by
  constructor
  · intro pairs m n
    refine ⟨(computeScore_fields pairs m n).1, (computeScore_fields pairs m n).2.1,
      (computeScore_fields pairs m n).2.2, counts_sum pairs, ?_, ?_, ?_⟩ <;>
      simp [computeScore, foldl_scoreStep]
  · have h : ([⟨.str "A", .str "A"⟩, ⟨.str "B", .str "A"⟩,
        (⟨.str "--", .str "A"⟩ : Pair)].foldl scoreStep (0, 0, 0)) = (1, 1, 1) := by decide
    simp only [computeScore, h]
    norm_num [ScoreSummary.mk.injEq, round2, jsRound]

/-- C5: the overall total of `computeSectionScores` equals `computeScore`
applied to the concatenation of all sections' pair lists in section order
(it is recomputed from the flattened pairs, not summed from section totals). -/
theorem computeSectionScores_total_refines (secs : List Section) :
    (computeSectionScores secs).total = overallTotalSpec secs := by
  simp only [computeSectionScores, overallTotalSpec, flatMap_pairs_eq_flatten]

/-- C9: `mapToLetter` maps "1".."4" to "A".."D", every other input to the
sentinel `"--"`, and the sentinel is idempotent under re-mapping. -/
theorem mapToLetter_total_spec :
    (mapToLetter "1" = "A" ∧ mapToLetter "2" = "B"
      ∧ mapToLetter "3" = "C" ∧ mapToLetter "4" = "D")
    ∧ (∀ s : String, s ∉ (["1", "2", "3", "4"] : List String) → mapToLetter s = "--")
    ∧ mapToLetter "--" = "--" := by
  refine ⟨by decide, ?_, by decide⟩
  intro s hs
  simp only [List.mem_cons, List.not_mem_nil, or_false, not_or] at hs
  obtain ⟨h1, h2, h3, h4⟩ := hs
  simp [mapToLetter, h1, h2, h3, h4]

/-- Witness for C9 at the concrete out-of-range input "7". -/
theorem mapToLetter_total_spec_witness :
    ("7" : String) ∉ (["1", "2", "3", "4"] : List String) ∧ mapToLetter "7" = "--" :=
  ⟨by decide, mapToLetter_total_spec.2.1 "7" (by decide)⟩

/-- C10: `computeScore` is total over arbitrary pair field values — every
pair is counted into exactly one bucket, a pair whose `your` field is `null`
or `undefined` is counted as unattempted (the field coerces to the empty
string), and a call with no arguments equals the call on the empty list with
the default marking scheme. -/
theorem computeScore_total_on_jsvalues :
    (∀ (pairs : List Pair) (m n : ℚ),
      (computeScore pairs m n).correct + (computeScore pairs m n).wrong
        + (computeScore pairs m n).unattempted = pairs.length)
    ∧ (∀ c : JsVal, classify ⟨JsVal.null, c⟩ = Cls.unattempted
        ∧ classify ⟨JsVal.undef, c⟩ = Cls.unattempted)
    ∧ computeScore = computeScore [] 1 (1/4) := by
  refine ⟨?_, ?_, rfl⟩
  · intro pairs m n
    obtain ⟨h1, h2, h3⟩ := computeScore_fields pairs m n
    rw [h1, h2, h3]
    exact counts_sum pairs
  · intro c
    exact ⟨rfl, rfl⟩

/-- C1 (bug evidence): the guard returns zero sections for empty/non-string
input, but on a non-empty document with no section markers `parseAnswers`
faults (the source dereferences `sections[0]`, which is `undefined`) even
though a pair was extractable — the pairs never reach an implicit "Overall"
section. -/
theorem parseAnswers_sectionless_throws :
    parseAnswers HtmlInput.invalid = Except.ok ⟨[]⟩
    ∧ parseAnswers (HtmlInput.valid docNoSections) = Except.error ()
    ∧ structuralPairs docNoSections.tables = [⟨JsVal.str "--", JsVal.str "B"⟩] :=
  ⟨rfl, rfl, rfl⟩

/-- C3 counterexample: for `newTotal = 10`, corpus totals `[5, 20, 30]` and
300000 candidates, the code returns percentile 33.33 (rounded) and rank
200000 (computed from the unrounded ratio 1/3), while the claim's formula
`max(1, round((1 - percentile/100) * totalCandidates))` applied to the
returned percentile gives 200010. -/
theorem estimateRank_rounded_percentile_cex :
    (estimateRank 10 [5, 20, 30] 300000).percentile = some (3333/100)
    ∧ (estimateRank 10 [5, 20, 30] 300000).estimatedRank = some 200000
    ∧ max 1 (jsRound ((1 - (3333/100 : ℚ) / 100) * 300000)) = 200010
    ∧ (200000 : ℤ) ≠ 200010 := by
  refine ⟨?_, ?_, ?_, by decide⟩
  · have h : estimateRank 10 [5, 20, 30] 300000
        = ⟨some (3333/100), some 200000, 3⟩ := by
      simp only [estimateRank]
      norm_num [List.countP_cons, List.countP_nil, RankResult.mk.injEq, round2, jsRound]
    rw [h]
  · have h : estimateRank 10 [5, 20, 30] 300000
        = ⟨some (3333/100), some 200000, 3⟩ := by
      simp only [estimateRank]
      norm_num [List.countP_cons, List.countP_nil, RankResult.mk.injEq, round2, jsRound]
    rw [h]
  · norm_num [jsRound]

/-- C3 as amended: `sampleSize` is the corpus size; an empty corpus yields
null percentile and rank; otherwise the returned percentile is
`lessCount/sampleSize*100` rounded to 2 decimals, and the returned rank is
`max(1, round((1 - percentile/100) * totalCandidates))` computed from the
*unrounded* percentile. -/
theorem estimateRank_spec (newTotal : ℚ) (corpus : List ℚ) (tc : ℚ) :
    (estimateRank newTotal corpus tc).sampleSize = corpus.length
    ∧ (corpus.length = 0 →
        (estimateRank newTotal corpus tc).percentile = none
        ∧ (estimateRank newTotal corpus tc).estimatedRank = none)
    ∧ (0 < corpus.length →
        (estimateRank newTotal corpus tc).percentile
          = some (round2 (((corpus.countP (fun t => decide (t < newTotal)) : ℚ)
              / (corpus.length : ℚ)) * 100))
        ∧ (estimateRank newTotal corpus tc).estimatedRank
          = some (max 1 (jsRound ((1
              - ((corpus.countP (fun t => decide (t < newTotal)) : ℚ)
                  / (corpus.length : ℚ) * 100) / 100) * tc)))) := by
  by_cases h : 0 < corpus.length
  · refine ⟨?_, fun h0 => absurd h0 (by omega), fun _ => ⟨?_, ?_⟩⟩ <;>
      simp [estimateRank, h]
  · refine ⟨?_, fun _ => ⟨?_, ?_⟩, fun hc => absurd hc h⟩ <;>
      simp [estimateRank, h]

/-- Witness for C3 (the spec's worked example): corpus `[5, 8, 12, 15]`,
`newTotal = 10`, 1000 candidates gives percentile 50 and rank 500. -/
theorem estimateRank_spec_witness :
    0 < ([5, 8, 12, 15] : List ℚ).length
    ∧ (estimateRank 10 [5, 8, 12, 15] 1000).percentile = some 50
    ∧ (estimateRank 10 [5, 8, 12, 15] 1000).estimatedRank = some 500 := by
  have h := (estimateRank_spec 10 [5, 8, 12, 15] 1000).2.2 (by norm_num)
  refine ⟨by norm_num, ?_, ?_⟩
  · rw [h.1]; norm_num [List.countP_cons, List.countP_nil, round2, jsRound]
  · rw [h.2]; norm_num [List.countP_cons, List.countP_nil, jsRound]

/-- C4: with `k > 1` discovered sections and `n` structural pairs, the
distribution step gives each of the first `k-1` sections exactly
`floor(n/k)` consecutive pairs (the slice at its position), the last section
the remaining `n - (k-1)*floor(n/k)` pairs, the concatenation of all
sections' pairs is the original pair list, and the per-section
`totalQuestions` after scoring sum to `n`. -/
theorem distributePairs_even_split (names : List String) (l : List Pair)
    (hk : 1 < names.length) :
    (distributePairs names l).length = names.length
    ∧ (∀ j, j + 1 < names.length →
        ((distributePairs names l).get? j).map Section.pairs
          = some (jsSlice l (j * (l.length / names.length))
              (j * (l.length / names.length) + l.length / names.length)))
    ∧ (∀ j, j + 1 < names.length →
        ((distributePairs names l).get? j).map (fun s => s.pairs.length)
          = some (l.length / names.length))
    ∧ ((distributePairs names l).getLast?).map (fun s => s.pairs.length)
        = some (l.length - (names.length - 1) * (l.length / names.length))
    ∧ (distributePairs names l).flatMap Section.pairs = l
    ∧ ((distributePairs names l).map
        (fun s => (computeScore s.pairs).totalQuestions)).sum = l.length := by
  have hne : names ≠ [] := by intro hn; rw [hn] at hk; simp at hk
  have hkp : names.length * (l.length / names.length) ≤ l.length := by
    rw [Nat.mul_comm]; exact Nat.div_mul_le_self l.length names.length
  have hget := distributeAux_get names.length (l.length / names.length) l names 0
  have hflat := distributePairs_flatMap names l hne
  have hlen : (distributePairs names l).length = names.length :=
    distributeAux_length names.length (l.length / names.length) l names 0
  refine ⟨hlen, ?_, ?_, ?_, hflat, ?_⟩
  · intro j hj
    have hjlt : j < names.length := by omega
    rw [show distributePairs names l
        = distributeAux names 0 names.length (l.length / names.length) l from rfl,
      hget j, List.get?_eq_get hjlt]
    simp only [Nat.zero_add, Option.map_some']
    rw [if_neg (by omega)]
  · intro j hj
    have hjlt : j < names.length := by omega
    have hle : (j + 1) * (l.length / names.length)
        ≤ names.length * (l.length / names.length) :=
      Nat.mul_le_mul_right _ (by omega)
    rw [show distributePairs names l
        = distributeAux names 0 names.length (l.length / names.length) l from rfl,
      hget j, List.get?_eq_get hjlt]
    simp only [Nat.zero_add, Option.map_some']
    rw [if_neg (by omega)]
    have hstep : (j + 1) * (l.length / names.length)
        = j * (l.length / names.length) + l.length / names.length := by ring
    have hlen2 : l.length / names.length
        ≤ (l.drop (j * (l.length / names.length))).length := by
      rw [List.length_drop]
      generalize hq : l.length / names.length = q at hle hkp hstep ⊢
      omega
    simp only [jsSlice, Nat.add_sub_cancel_left, Option.some.injEq]
    exact List.length_take_of_le hlen2
  · have hpos : 0 < names.length := by omega
    have hlast : (distributePairs names l).getLast?
        = (distributePairs names l).get? (names.length - 1) := by
      rw [List.getLast?_eq_getElem?, ← List.get?_eq_getElem?, hlen]
    have hjlt : names.length - 1 < names.length := by omega
    rw [hlast, show distributePairs names l
        = distributeAux names 0 names.length (l.length / names.length) l from rfl,
      hget (names.length - 1), List.get?_eq_get hjlt]
    simp only [Nat.zero_add, Option.map_some']
    rw [if_pos (by omega)]
    have hsucc : (names.length - 1) * (l.length / names.length) + l.length / names.length
        = names.length * (l.length / names.length) := by
      rw [← Nat.succ_mul]
      congr 1
      omega
    have hlen2 : l.length / names.length
        ≤ (l.drop ((names.length - 1) * (l.length / names.length))).length := by
      rw [List.length_drop]
      generalize hq : l.length / names.length = q at hkp hsucc ⊢
      omega
    simp only [jsSlice, Nat.add_sub_cancel_left, List.length_append, List.length_drop,
      List.length_take_of_le hlen2, Option.some.injEq]
    generalize hq : l.length / names.length = q at hkp hsucc ⊢
    omega
  · calc ((distributePairs names l).map
          (fun s => (computeScore s.pairs).totalQuestions)).sum
        = ((distributePairs names l).map (fun s => s.pairs.length)).sum := by
          simp only [totalQuestions_eq_length]
      _ = ((distributePairs names l).flatMap Section.pairs).length := by
          rw [List.length_flatMap]; rfl
      _ = l.length := by rw [hflat]

/-- A concrete three-pair list, matching `structuralPairs docTwoSections.tables`. -/
def pairs3 : List Pair :=
  [⟨JsVal.str "C", JsVal.str "A"⟩, ⟨JsVal.str "--", JsVal.str "B"⟩,
    ⟨JsVal.str "--", JsVal.str "--"⟩]

/-- Witness for C4: two sections and three pairs — the first section gets
`floor(3/2) = 1` pair and the concatenation is conserved. -/
theorem distributePairs_even_split_witness :
    1 < (["Maths", "GK"] : List String).length
    ∧ (distributePairs ["Maths", "GK"] pairs3).flatMap Section.pairs = pairs3 :=
  ⟨by decide, (distributePairs_even_split ["Maths", "GK"] pairs3 (by decide)).2.2.2.2.1⟩

theorem mapToLetter_ne_sentinel (s : String) :
    mapToLetter s ≠ "--" ↔ s ∈ (["1", "2", "3", "4"] : List String) := by
  rcases eq_or_ne s "1" with h | h1
  · subst h; decide
  rcases eq_or_ne s "2" with h | h2
  · subst h; decide
  rcases eq_or_ne s "3" with h | h3
  · subst h; decide
  rcases eq_or_ne s "4" with h | h4
  · subst h; decide
  simp [mapToLetter, h1, h2, h3, h4]

/-- C6 counterexample: a question table whose flagged option row reads
`5. Rome` — the structural pass emits a pair whose `correctAnswer` is the
sentinel `"--"`, refuting "the pair's correctAnswer is never the sentinel". -/
theorem structural_sentinel_correct_cex :
    structuralPairs [tblFive] = [⟨JsVal.str "--", JsVal.str "--"⟩]
    ∧ mapToLetter "5" = "--" := ⟨rfl, rfl⟩

/-- C6 as amended: blocks with no flagged (and digit-dot-parsable) option
row are skipped; an emitted pair's `correctAnswer` is `mapToLetter` of the
flagged row's leading number — hence not the sentinel exactly when that
number is 1..4 — and its chosen value is not the sentinel exactly when a
chosen-option row was found whose value is nonempty and maps to a letter. -/
theorem extractPair_sentinel_spec :
    (∀ t : QTable, extractCorrectNum t = none → extractPair t = none)
    ∧ (∀ (t : QTable) (p : Pair) (num : String),
        extractCorrectNum t = some num → extractPair t = some p →
        p.correct = JsVal.str (mapToLetter num)
        ∧ (p.correct ≠ JsVal.str "--" ↔ num ∈ (["1", "2", "3", "4"] : List String))
        ∧ (p.your ≠ JsVal.str "--" ↔
            ∃ s, extractChosenRaw t = some s ∧ s ≠ "" ∧ mapToLetter s ≠ "--")) := by
  constructor
  · intro t h
    simp [extractPair, h]
  · intro t p num hc hp
    simp only [extractPair, hc] at hp
    injection hp with hp
    subst hp
    refine ⟨rfl, ?_, ?_⟩
    · simp only [ne_eq, JsVal.str.injEq]
      exact mapToLetter_ne_sentinel num
    · cases hr : extractChosenRaw t with
      | none => simp [hr]
      | some s =>
        rcases eq_or_ne s "" with hs | hs
        · subst hs; simp [hr]
        · simp only [hr, hs, if_neg, ne_eq, JsVal.str.injEq, Option.some.injEq]
          constructor
          · intro hne
            exact ⟨s, rfl, hs, hne⟩
          · rintro ⟨s2, hs2, -, hne⟩
            subst hs2
            exact hne

/-- Witness for C6 (amended) at the concrete table with correct option 1
and chosen option 3. -/
theorem extractPair_sentinel_spec_witness :
    (⟨JsVal.str "C", JsVal.str "A"⟩ : Pair).correct = JsVal.str (mapToLetter "1") :=
  (extractPair_sentinel_spec.2 tblChosen3 ⟨JsVal.str "C", JsVal.str "A"⟩ "1"
    (by decide) (by decide)).1

/-- C8: a question block with a detectable correct answer but a missing menu
table, or an absent or unparseable chosen value, is still emitted as a pair
whose chosen value is the sentinel `"--"`, which `computeScore` classifies
as unattempted. -/
theorem missingChosen_emits_unattempted (t : QTable) (num : String)
    (hc : extractCorrectNum t = some num)
    (hm : extractChosenRaw t = none ∨ extractChosenRaw t = some ""
      ∨ ∃ s, extractChosenRaw t = some s ∧ mapToLetter s = "--") :
    extractPair t = some ⟨JsVal.str "--", JsVal.str (mapToLetter num)⟩
    ∧ classify ⟨JsVal.str "--", JsVal.str (mapToLetter num)⟩ = Cls.unattempted := by
  refine ⟨?_, rfl⟩
  simp only [extractPair, hc]
  rcases hm with hm | hm | ⟨s, hm, hmap⟩
  · rw [hm]
  · simp [hm]
  · rw [hm]
    rcases eq_or_ne s "" with hs | hs
    · simp [hs]
    · simp [hs, hmap]

/-- Witness for C8 at the concrete table with correct option 2 and no menu
table. -/
theorem missingChosen_emits_unattempted_witness :
    extractPair tblNoMenu = some ⟨JsVal.str "--", JsVal.str (mapToLetter "2")⟩ :=
  (missingChosen_emits_unattempted tblNoMenu "2" (by decide) (Or.inl (by decide))).1

/-- C7: when `parseAnswers` returns normally, the returned pairs come from
the structural pass exactly when it emitted at least one pair; otherwise
every section before the last is empty and the last section's pairs are
precisely the fallback regex matches, in order — the two passes are
mutually exclusive and no pair is double-counted. -/
theorem fallback_mutual_exclusive (doc : Doc) (r : ParseResult)
    (h : parseAnswersCore doc = Except.ok r) :
    (structuralPairs doc.tables ≠ [] →
      r.sections.flatMap Section.pairs = structuralPairs doc.tables)
    ∧ (structuralPairs doc.tables = [] →
      (∀ s ∈ r.sections.dropLast, s.pairs = [])
      ∧ (r.sections.getLast?).map Section.pairs
          = some (doc.bodyMatches.map fallbackPair)) := by
  unfold parseAnswersCore at h
  cases ha : assembleSections (discoverSections doc.sectionLabels)
      (structuralPairs doc.tables) with
  | error e => rw [ha] at h; cases h
  | ok secs =>
    rw [ha] at h
    simp only [] at h
    obtain ⟨hne, hflat⟩ := assembleSections_ok _ _ _ ha
    by_cases hz : (secs.flatMap Section.pairs).length = 0
    · rw [if_pos hz] at h
      have hsnil : structuralPairs doc.tables = [] := by
        rw [← hflat]
        exact List.length_eq_zero.mp hz
      cases hap : appendToLast secs (doc.bodyMatches.map fallbackPair) with
      | error e => rw [hap] at h; cases h
      | ok secs2 =>
        rw [hap] at h
        injection h with h
        subst h
        obtain ⟨start, last, h1, h2⟩ := appendToLast_ok _ _ _ hap
        have hallnil : ∀ s ∈ secs, s.pairs = [] :=
          flatMap_pairs_eq_nil (by rw [hflat, hsnil])
        refine ⟨fun hcon => absurd hsnil hcon, fun _ => ⟨?_, ?_⟩⟩
        · intro s hs
          simp only [h2, List.dropLast_concat] at hs
          exact hallnil s (by rw [h1]; exact List.mem_append_left _ hs)
        · have hlast : last.pairs = [] :=
            hallnil last (by rw [h1]; exact List.mem_append_right _ (by simp))
          simp only [h2, List.getLast?_concat, Option.map_some', hlast,
            List.nil_append]
    · rw [if_neg hz] at h
      injection h with h
      subst h
      refine ⟨fun _ => hflat, fun hnil => absurd ?_ hz⟩
      rw [hflat, hnil]
      rfl

/-- Witness for C7 on the fallback document: one section, no structural
pairs, one regex match landing in the (last) section. -/
theorem fallback_mutual_exclusive_witness :
    ((ParseResult.mk [⟨"Maths", [⟨JsVal.str "B", JsVal.str "C"⟩]⟩]).sections.getLast?).map
        Section.pairs = some (docFallback.bodyMatches.map fallbackPair) :=
  ((fallback_mutual_exclusive docFallback
    (ParseResult.mk [⟨"Maths", [⟨JsVal.str "B", JsVal.str "C"⟩]⟩]) (by rfl)).2 (by rfl)).2

/-! ## Concrete evaluations of the embedded parser -/

/-- End-to-end evaluation of the structural parser on the two-section
document: three structural pairs, distributed `floor(3/2) = 1` to the first
section and the remaining two to the last. -/
theorem parseAnswersCore_docTwoSections_eval :
    parseAnswersCore docTwoSections
      = Except.ok ⟨[⟨"Maths", [⟨.str "C", .str "A"⟩]⟩,
          ⟨"GK", [⟨.str "--", .str "B"⟩, ⟨.str "--", .str "--"⟩]⟩]⟩ := by rfl

/-- Evaluation of the classifier on a padded, lowercase "not attempted"
chosen value: the case-insensitive pattern catches it after normalization. -/
theorem classify_notAttempted_eval :
    classify ⟨.str " not attempted ", .str "A"⟩ = Cls.unattempted := by decide
